import Mathlib

/-!
# Verification of the tashi-token ledger engine

Shallow embedding of `src/lib.rs` (a fungible-token contract): the
`SortedVecMap`-backed balance and allowance tables and the four entry
points `transfer`, `transfer_from`, `approve`, `approve_relative`,
together with the `initialize` constructor (embedded as `initToken`).

Modeling conventions:
* `u128` values are `Nat`; every checked operation of the source carries
  its explicit bound (`checkedAddU128` tests against `2^128 - 1`, &c.).
* `i128` values are `Int` with the explicit range `[-(2^127), 2^127 - 1]`;
  `checked_abs`, `checked_add` and the `try_into` conversions of the
  source are embedded as `Option`-returning functions.
* Rust panics become `Except.error` with a constructor per panic site,
  so an aborted handler returns no state at all (the host keeps the
  pre-call state, which models the abort-is-atomic contract).
* `Address` is an opaque ordered identifier on chain; only its decidable
  equality and linear order are used, so it is modeled as `Nat`.
* `SortedVecMap<Address, V>` is a strictly-key-sorted association list;
  `svGet`, `svInsert`, `svRemove` mirror `get`, `insert`, `remove`.
-/

set_option maxRecDepth 100000

namespace TashiToken

/-- On-chain account address. The source's `Address` is an opaque byte
identifier carrying `Ord + Eq`; we model it by `Nat`. -/
abbrev Address := Nat

/-- Maximum value of `u128`. -/
def u128Max : Nat := 2 ^ 128 - 1

/-- Minimum value of `i128`. -/
def i128Min : Int := -(2 ^ 127)

/-- Maximum value of `i128`. -/
def i128Max : Int := 2 ^ 127 - 1

/-- Embedding of `u128::checked_sub`: `None` on underflow. -/
def checkedSubU128 (a b : Nat) : Option Nat :=
  if b ≤ a then some (a - b) else none

/-- Embedding of `u128::checked_add`: `None` when the sum exceeds `u128::MAX`. -/
def checkedAddU128 (a b : Nat) : Option Nat :=
  if a + b ≤ u128Max then some (a + b) else none

/-- Embedding of `i128::checked_add`: `None` when the sum leaves the `i128` range. -/
def checkedAddI128 (a b : Int) : Option Int :=
  if i128Min ≤ a + b ∧ a + b ≤ i128Max then some (a + b) else none

/-- Embedding of `i128::checked_abs`: `None` exactly at `i128::MIN`
(for any in-range argument). -/
def checkedAbsI128 (a : Int) : Option Int :=
  if a = i128Min then none else some |a|

/-- Embedding of `u128 -> i128` `try_into`: fails when the value exceeds
`i128::MAX`. -/
def u128ToI128 (n : Nat) : Option Int :=
  if (n : Int) ≤ i128Max then some (n : Int) else none

/-- Embedding of `i128 -> u128` `try_into`: fails exactly on negative values
(an `i128` value never exceeds `u128::MAX`). -/
def i128ToU128 (z : Int) : Option Nat :=
  if 0 ≤ z then some z.toNat else none

/-- Lookup in a `SortedVecMap`, embedded over an association list:
returns the value at the first matching key. -/
def svGet {V : Type} (m : List (Address × V)) (k : Address) : Option V :=
  match m with
  | [] => none
  | p :: rest => if k = p.1 then some p.2 else svGet rest k

/-- Insert-or-overwrite in a `SortedVecMap`: keeps keys strictly sorted
when the input is sorted. -/
def svInsert {V : Type} (m : List (Address × V)) (k : Address) (v : V) :
    List (Address × V) :=
  match m with
  | [] => [(k, v)]
  | p :: rest =>
    if k < p.1 then (k, v) :: p :: rest
    else if k = p.1 then (k, v) :: rest
    else p :: svInsert rest k v

/-- Key removal in a `SortedVecMap`: drops the first matching key
(the only one, on sorted input). -/
def svRemove {V : Type} (m : List (Address × V)) (k : Address) :
    List (Address × V) :=
  match m with
  | [] => []
  | p :: rest => if k = p.1 then rest else p :: svRemove rest k

/-- Embedding of `SortedVecMap::contains_key`. -/
def svContainsKey {V : Type} (m : List (Address × V)) (k : Address) : Bool :=
  (svGet m k).isSome

/-- The `SortedVecMap` representation invariant: keys strictly increase. -/
def SortedKeys {V : Type} (m : List (Address × V)) : Prop :=
  List.Pairwise (fun p q => p.1 < q.1) m

/-- Sum of all stored values of a balance map. -/
def svSum (m : List (Address × Nat)) : Nat :=
  match m with
  | [] => 0
  | p :: rest => p.2 + svSum rest

/-- Embedding of the `BalanceMap::insert_balance` trait method
(instantiated at `V = u128`, whose `amount - amount` zero is `0`):
a zero amount removes the key, any other amount inserts/overwrites. -/
def insert_balance (m : List (Address × Nat)) (key : Address) (amount : Nat) :
    List (Address × Nat) :=
  let zeroV := amount - amount
  if amount = zeroV then svRemove m key else svInsert m key amount

/-- Embedding of the `TokenState` struct. The `_padding` field is an
alignment artifact with no semantic content and is omitted. -/
structure TokenState where
  total_supply : Nat
  name : String
  symbol : String
  balances : List (Address × Nat)
  allowed : List (Address × List (Address × Nat))
  decimals : Nat
  owner : Address
  deriving DecidableEq

/-- Embedding of `TokenState::balance_of`: stored value or `0` when absent. -/
def TokenState.balance_of (s : TokenState) (owner : Address) : Nat :=
  (svGet s.balances owner).getD 0

/-- Embedding of `TokenState::allowance`: two-level lookup defaulting to `0`. -/
def TokenState.allowance (s : TokenState) (owner spender : Address) : Nat :=
  ((svGet s.allowed owner).bind (fun inner => svGet inner spender)).getD 0

/-- Embedding of `TokenState::update_allowance`: ensure an inner map for
`owner` exists, then `insert_balance` the spender entry. -/
def TokenState.update_allowance (s : TokenState) (owner spender : Address)
    (amount : Nat) : TokenState :=
  let allowed1 :=
    if svContainsKey s.allowed owner then s.allowed
    else svInsert s.allowed owner []
  let inner := (svGet allowed1 owner).getD []
  { s with allowed := svInsert allowed1 owner (insert_balance inner spender amount) }

/-- Abort conditions of the four handlers, one constructor per panic site
of the source. -/
inductive TokenError where
  | insufficientBalance
  | insufficientAllowance
  | balanceOverflow
  | allowanceOverflow
  | conversionError
  deriving DecidableEq

/-- Embedding of the `initialize` constructor of the source (`#[init]`):
the entire supply is credited to the creating sender with a plain
`insert` (not `insert_balance`), and the allowance table starts empty. -/
def initToken (sender : Address) (total_supply : Nat) (name symbol : String)
    (decimals : Nat) : TokenState :=
  { total_supply := total_supply
    name := name
    symbol := symbol
    balances := svInsert [] sender total_supply
    allowed := []
    decimals := decimals
    owner := sender }

/-- Embedding of the `transfer` action: debit the sender with checked
subtraction, then credit the receiver with checked addition; each failure
aborts without producing a state. -/
def transfer (state : TokenState) (sender receiver : Address) (amount : Nat) :
    Except TokenError TokenState :=
  match checkedSubU128 (state.balance_of sender) amount with
  | none => .error .insufficientBalance
  | some new_sender_balance =>
    let state1 :=
      { state with balances := insert_balance state.balances sender new_sender_balance }
    match checkedAddU128 (state1.balance_of receiver) amount with
    | none => .error .balanceOverflow
    | some new_receiver_balance =>
      .ok { state1 with
              balances := insert_balance state1.balances receiver new_receiver_balance }

/-- Embedding of the `transfer_from` action: debit the caller's allowance
from `fromAddr` with checked subtraction, then credit the receiver; the
`fromAddr` ledger balance is never touched. -/
def transfer_from (state : TokenState) (sender fromAddr receiver : Address)
    (amount : Nat) : Except TokenError TokenState :=
  match checkedSubU128 (state.allowance fromAddr sender) amount with
  | none => .error .insufficientAllowance
  | some caller_new_allowance =>
    let state1 := state.update_allowance fromAddr sender caller_new_allowance
    match checkedAddU128 (state1.balance_of receiver) amount with
    | none => .error .balanceOverflow
    | some new_receiver_balance =>
      .ok { state1 with
              balances := insert_balance state1.balances receiver new_receiver_balance }

/-- Embedding of the `approve` action: debit the caller's balance with
checked subtraction, then overwrite the spender allowance. -/
def approve (state : TokenState) (sender spender : Address) (amount : Nat) :
    Except TokenError TokenState :=
  match checkedSubU128 (state.balance_of sender) amount with
  | none => .error .insufficientBalance
  | some caller_new_balance =>
    let state1 :=
      { state with balances := insert_balance state.balances sender caller_new_balance }
    .ok (state1.update_allowance sender spender amount)

/-- The clamping step of `approve_relative` (lines 316–323 of the source):
for a negative delta whose magnitude (with `checked_abs().unwrap_or(i128::MAX)`)
is at least the current allowance, the delta becomes minus the allowance. -/
def clampDelta (delta allowanceI : Int) : Int :=
  if delta < 0 then
    let abs_delta := (checkedAbsI128 delta).getD i128Max
    if allowanceI ≤ abs_delta then -allowanceI else delta
  else delta

/-- Embedding of the `approve_relative` action: convert balance and
allowance to `i128` (checked), clamp a negative delta, then add the same
clamped delta to the allowance and to the caller's balance, each with
checked addition and a checked conversion back to `u128`. -/
def approve_relative (state : TokenState) (sender spender : Address)
    (delta0 : Int) : Except TokenError TokenState :=
  match u128ToI128 (state.balance_of sender) with
  | none => .error .conversionError
  | some caller_balance =>
    match u128ToI128 (state.allowance sender spender) with
    | none => .error .conversionError
    | some spender_allowance =>
      let delta := clampDelta delta0 spender_allowance
      match checkedAddI128 spender_allowance delta with
      | none => .error .allowanceOverflow
      | some sna0 =>
        match i128ToU128 sna0 with
        | none => .error .conversionError
        | some spender_new_allowance =>
          let state1 := state.update_allowance sender spender spender_new_allowance
          match checkedAddI128 caller_balance delta with
          | none => .error .balanceOverflow
          | some cnb0 =>
            match i128ToU128 cnb0 with
            | none => .error .conversionError
            | some caller_new_balance =>
              .ok { state1 with
                      balances := insert_balance state1.balances sender caller_new_balance }

/-- One invocation of any of the four entry points. -/
inductive Op where
  | transferOp (sender receiver : Address) (amount : Nat)
  | transferFromOp (sender fromAddr receiver : Address) (amount : Nat)
  | approveOp (sender spender : Address) (amount : Nat)
  | approveRelativeOp (sender spender : Address) (delta : Int)

/-- Dispatch of an operation to its handler. -/
def applyOp (s : TokenState) : Op → Except TokenError TokenState
  | .transferOp c r a => transfer s c r a
  | .transferFromOp c f r a => transfer_from s c f r a
  | .approveOp c sp a => approve s c sp a
  | .approveRelativeOp c sp d => approve_relative s c sp d

/-- States reachable from a genesis state by successfully completing
operations. -/
inductive Reachable (g : TokenState) : TokenState → Prop where
  | refl : Reachable g g
  | step {s s' : TokenState} {op : Op} :
      Reachable g s → applyOp s op = Except.ok s' → Reachable g s'

/-- States reachable from a genesis state by successfully completing
`transfer` operations only. -/
inductive TransferOnlyReachable (g : TokenState) : TokenState → Prop where
  | refl : TransferOnlyReachable g g
  | step {s s' : TokenState} {c r : Address} {a : Nat} :
      TransferOnlyReachable g s → transfer s c r a = Except.ok s' →
      TransferOnlyReachable g s'

/-- No balance entry and no inner allowance entry stores the value `0`. -/
def NoZeroState (s : TokenState) : Prop :=
  (∀ p ∈ s.balances, p.2 ≠ 0) ∧
  (∀ q ∈ s.allowed, ∀ p ∈ q.2, p.2 ≠ 0)

/-- The `SortedVecMap` representation invariant for a whole state: the
balance map, the outer allowance map and every inner allowance map are
strictly key-sorted. -/
def SortedState (s : TokenState) : Prop :=
  SortedKeys s.balances ∧ SortedKeys s.allowed ∧ ∀ q ∈ s.allowed, SortedKeys q.2

instance {V : Type} (m : List (Address × V)) : Decidable (SortedKeys m) := by
  unfold SortedKeys
  exact inferInstance

instance (s : TokenState) : Decidable (NoZeroState s) := by
  unfold NoZeroState
  exact inferInstance

instance (s : TokenState) : Decidable (SortedState s) := by
  unfold SortedState
  exact inferInstance

/-- A concrete state used in the scenario theorems: account `0` holds 500
tokens and has allotted an allowance of 100 to spender `1`. -/
def sampleState : TokenState :=
  { total_supply := 1000
    name := ""
    symbol := ""
    balances := [(0, 500)]
    allowed := [(0, [(1, 100)])]
    decimals := 0
    owner := 0 }

/-- A concrete state used in the scenario theorems: account `0` holds 500
tokens and no allowance exists. -/
def sampleStateNoAllowance : TokenState :=
  { total_supply := 1000
    name := ""
    symbol := ""
    balances := [(0, 500)]
    allowed := []
    decimals := 0
    owner := 0 }

/-- The state expected after `transfer_from sampleState 1 0 2 50`. -/
def sampleAfterTransferFrom : TokenState :=
  { total_supply := 1000
    name := ""
    symbol := ""
    balances := [(0, 500), (2, 50)]
    allowed := [(0, [(1, 50)])]
    decimals := 0
    owner := 0 }

/-- The state expected after `approve_relative sampleStateNoAllowance 0 1 50`. -/
def sampleAfterApproveRelative : TokenState :=
  { total_supply := 1000
    name := ""
    symbol := ""
    balances := [(0, 550)]
    allowed := [(0, [(1, 50)])]
    decimals := 0
    owner := 0 }

/-- The state expected after `approve 0 1 400` at the genesis state with
supply 1000 owned by account 0. -/
def sampleAfterGenesisApprove : TokenState :=
  { total_supply := 1000
    name := ""
    symbol := ""
    balances := [(0, 600)]
    allowed := [(0, [(1, 400)])]
    decimals := 0
    owner := 0 }

/-! ## Lemmas on the sorted-map layer -/

theorem svGet_eq_none_of_lt {V : Type} {m : List (Address × V)} {k : Address}
    (h : ∀ p ∈ m, k < p.1) : svGet m k = none := by
  induction m with
  | nil => rfl
  | cons p rest ih =>
    have hk : k ≠ p.1 := Nat.ne_of_lt (h p (by simp))
    simp only [svGet, if_neg hk]
    exact ih fun q hq => h q (by simp [hq])

theorem mem_svInsert {V : Type} {m : List (Address × V)} {k : Address} {v : V}
    {p : Address × V} (h : p ∈ svInsert m k v) : p = (k, v) ∨ p ∈ m := by
  induction m with
  | nil => simpa [svInsert] using h
  | cons q rest ih =>
    by_cases h1 : k < q.1
    · simp only [svInsert, if_pos h1, List.mem_cons] at h
      rcases h with h | h | h
      · exact Or.inl h
      · exact Or.inr (by simp [h])
      · exact Or.inr (by simp [h])
    · by_cases h2 : k = q.1
      · simp only [svInsert, if_neg h1, if_pos h2, List.mem_cons] at h
        rcases h with h | h
        · exact Or.inl h
        · exact Or.inr (by simp [h])
      · simp only [svInsert, if_neg h1, if_neg h2, List.mem_cons] at h
        rcases h with h | h
        · exact Or.inr (by simp [h])
        · rcases ih h with h | h
          · exact Or.inl h
          · exact Or.inr (by simp [h])

theorem svRemove_sublist {V : Type} (m : List (Address × V)) (k : Address) :
    (svRemove m k).Sublist m := by
  induction m with
  | nil => simp [svRemove]
  | cons p rest ih =>
    by_cases h : k = p.1
    · simp only [svRemove, if_pos h]
      exact List.sublist_cons_of_sublist p (List.Sublist.refl rest)
    · simp only [svRemove, if_neg h]
      exact List.Sublist.cons₂ p ih

theorem mem_svRemove {V : Type} {m : List (Address × V)} {k : Address}
    {p : Address × V} (h : p ∈ svRemove m k) : p ∈ m :=
  (svRemove_sublist m k).mem h

theorem sortedKeys_svInsert {V : Type} {m : List (Address × V)} {k : Address}
    {v : V} (hs : SortedKeys m) : SortedKeys (svInsert m k v) := by
  induction m with
  | nil => simp [svInsert, SortedKeys]
  | cons p rest ih =>
    rw [SortedKeys, List.pairwise_cons] at hs
    obtain ⟨hlt, hrest⟩ := hs
    by_cases h1 : k < p.1
    · simp only [svInsert, if_pos h1]
      rw [SortedKeys, List.pairwise_cons]
      refine ⟨?_, ?_⟩
      · intro q hq
        rcases List.mem_cons.mp hq with h | h
        · simp [h, h1]
        · exact Nat.lt_trans h1 (hlt q h)
      · rw [List.pairwise_cons]
        exact ⟨hlt, hrest⟩
    · by_cases h2 : k = p.1
      · simp only [svInsert, if_neg h1, if_pos h2]
        rw [SortedKeys, List.pairwise_cons]
        exact ⟨fun q hq => h2 ▸ hlt q hq, hrest⟩
      · simp only [svInsert, if_neg h1, if_neg h2]
        rw [SortedKeys, List.pairwise_cons]
        refine ⟨?_, ih hrest⟩
        intro q hq
        rcases mem_svInsert hq with h | h
        · have : p.1 < k := Nat.lt_of_le_of_ne (Nat.le_of_not_lt h1) (fun e => h2 e.symm)
          simpa [h] using this
        · exact hlt q h

theorem sortedKeys_svRemove {V : Type} {m : List (Address × V)} {k : Address}
    (hs : SortedKeys m) : SortedKeys (svRemove m k) :=
  List.Pairwise.sublist (svRemove_sublist m k) hs

theorem svGet_svInsert_self {V : Type} (m : List (Address × V)) (k : Address)
    (v : V) : svGet (svInsert m k v) k = some v := by
  induction m with
  | nil => simp [svInsert, svGet]
  | cons p rest ih =>
    by_cases h1 : k < p.1
    · simp [svInsert, if_pos h1, svGet]
    · by_cases h2 : k = p.1
      · simp [svInsert, if_neg h1, if_pos h2, svGet]
      · simp [svInsert, if_neg h1, if_neg h2, svGet, h2, ih]

theorem svGet_svInsert_ne {V : Type} {m : List (Address × V)} {k j : Address}
    (v : V) (hne : j ≠ k) : svGet (svInsert m k v) j = svGet m j := by
  induction m with
  | nil => simp [svInsert, svGet, hne]
  | cons p rest ih =>
    by_cases h1 : k < p.1
    · simp [svInsert, if_pos h1, svGet, hne]
    · by_cases h2 : k = p.1
      · have hj : j ≠ p.1 := h2 ▸ hne
        simp [svInsert, if_neg h1, if_pos h2, svGet, hne, hj]
      · by_cases h3 : j = p.1
        · simp [svInsert, if_neg h1, if_neg h2, svGet, h3]
        · simp [svInsert, if_neg h1, if_neg h2, svGet, h3, ih]

theorem svGet_svRemove_self {V : Type} {m : List (Address × V)} {k : Address}
    (hs : SortedKeys m) : svGet (svRemove m k) k = none := by
  induction m with
  | nil => rfl
  | cons p rest ih =>
    rw [SortedKeys, List.pairwise_cons] at hs
    obtain ⟨hlt, hrest⟩ := hs
    by_cases h : k = p.1
    · simp only [svRemove, if_pos h]
      exact svGet_eq_none_of_lt fun q hq => h ▸ hlt q hq
    · simp only [svRemove, if_neg h, svGet, if_neg h]
      exact ih hrest

theorem svGet_svRemove_ne {V : Type} {m : List (Address × V)} {k j : Address}
    (hne : j ≠ k) : svGet (svRemove m k) j = svGet m j := by
  induction m with
  | nil => rfl
  | cons p rest ih =>
    by_cases h : k = p.1
    · have hj : j ≠ p.1 := h ▸ hne
      simp [svRemove, if_pos h, svGet, hj]
    · by_cases h3 : j = p.1
      · simp [svRemove, if_neg h, svGet, h3]
      · simp [svRemove, if_neg h, svGet, h3, ih]

theorem svGetD_le_svSum (m : List (Address × Nat)) (k : Address) :
    (svGet m k).getD 0 ≤ svSum m := by
  induction m with
  | nil => simp [svGet, svSum]
  | cons p rest ih =>
    by_cases h : k = p.1
    · simp only [svGet, if_pos h, Option.getD_some, svSum]
      omega
    · simp only [svGet, if_neg h, svSum]
      omega

theorem svSum_svInsert {m : List (Address × Nat)} (k : Address) (v : Nat)
    (hs : SortedKeys m) :
    svSum (svInsert m k v) + (svGet m k).getD 0 = svSum m + v := by
  induction m with
  | nil => simp [svInsert, svSum, svGet]
  | cons p rest ih =>
    rw [SortedKeys, List.pairwise_cons] at hs
    obtain ⟨hlt, hrest⟩ := hs
    by_cases h1 : k < p.1
    · have hg : svGet (p :: rest) k = none := by
        refine svGet_eq_none_of_lt ?_
        intro q hq
        rcases List.mem_cons.mp hq with h | h
        · simpa [h] using h1
        · exact Nat.lt_trans h1 (hlt q h)
      simp only [svInsert, if_pos h1, hg, svSum, Option.getD_none]
      omega
    · by_cases h2 : k = p.1
      · simp only [svInsert, if_neg h1, if_pos h2, svSum, svGet, if_pos h2,
          Option.getD_some]
        omega
      · simp only [svInsert, if_neg h1, if_neg h2, svSum, svGet, if_neg h2]
        have := ih hrest
        omega

theorem svSum_svRemove (m : List (Address × Nat)) (k : Address) :
    svSum (svRemove m k) + (svGet m k).getD 0 = svSum m := by
  induction m with
  | nil => simp [svRemove, svSum, svGet]
  | cons p rest ih =>
    by_cases h : k = p.1
    · simp only [svRemove, if_pos h, svGet, if_pos h, Option.getD_some, svSum]
      omega
    · simp only [svRemove, if_neg h, svGet, if_neg h, svSum]
      omega

/-! ## Lemmas on `insert_balance` -/

theorem insert_balance_eq (m : List (Address × Nat)) (key : Address)
    (amount : Nat) :
    insert_balance m key amount =
      if amount = 0 then svRemove m key else svInsert m key amount := by
  simp [insert_balance, Nat.sub_self]

theorem svSum_insert_balance {m : List (Address × Nat)} (k : Address) (v : Nat)
    (hs : SortedKeys m) :
    svSum (insert_balance m k v) + (svGet m k).getD 0 = svSum m + v := by
  rw [insert_balance_eq]
  by_cases h : v = 0
  · rw [if_pos h, h]
    simpa using svSum_svRemove m k
  · rw [if_neg h]
    exact svSum_svInsert k v hs

theorem sortedKeys_insert_balance {m : List (Address × Nat)} (k : Address)
    (v : Nat) (hs : SortedKeys m) : SortedKeys (insert_balance m k v) := by
  rw [insert_balance_eq]
  by_cases h : v = 0
  · rw [if_pos h]
    exact sortedKeys_svRemove hs
  · rw [if_neg h]
    exact sortedKeys_svInsert hs

theorem svGetD_insert_balance_self {m : List (Address × Nat)} {k : Address}
    (v : Nat) (hs : SortedKeys m) :
    (svGet (insert_balance m k v) k).getD 0 = v := by
  rw [insert_balance_eq]
  by_cases h : v = 0
  · rw [if_pos h, svGet_svRemove_self hs]
    simp [h]
  · rw [if_neg h, svGet_svInsert_self]
    rfl

theorem svGet_insert_balance_ne {m : List (Address × Nat)} {k j : Address}
    (v : Nat) (hne : j ≠ k) :
    svGet (insert_balance m k v) j = svGet m j := by
  rw [insert_balance_eq]
  by_cases h : v = 0
  · rw [if_pos h]
    exact svGet_svRemove_ne hne
  · rw [if_neg h]
    exact svGet_svInsert_ne v hne

theorem noZero_insert_balance {m : List (Address × Nat)} {k : Address}
    {v : Nat} (hm : ∀ p ∈ m, p.2 ≠ 0) :
    ∀ p ∈ insert_balance m k v, p.2 ≠ 0 := by
  intro p hp
  rw [insert_balance_eq] at hp
  by_cases h : v = 0
  · rw [if_pos h] at hp
    exact hm p (mem_svRemove hp)
  · rw [if_neg h] at hp
    rcases mem_svInsert hp with h1 | h1
    · simp [h1, h]
    · exact hm p h1

theorem svGet_mem {V : Type} {m : List (Address × V)} {k : Address} {v : V}
    (h : svGet m k = some v) : (k, v) ∈ m := by
  induction m with
  | nil => simp [svGet] at h
  | cons p rest ih =>
    by_cases h1 : k = p.1
    · simp only [svGet, if_pos h1, Option.some.injEq] at h
      simp [h1, ← h, Prod.ext_iff]
    · simp only [svGet, if_neg h1] at h
      exact List.mem_cons_of_mem p (ih h)

theorem svGet_of_not_containsKey {V : Type} {m : List (Address × V)}
    {k : Address} (h : ¬svContainsKey m k) : svGet m k = none := by
  cases hg : svGet m k with
  | none => rfl
  | some v =>
    exfalso
    apply h
    rw [svContainsKey, hg]
    rfl

/-! ## Lemmas on the state accessors and `update_allowance` -/

theorem update_allowance_balances (s : TokenState) (o sp : Address) (a : Nat) :
    (s.update_allowance o sp a).balances = s.balances := rfl

theorem update_allowance_total_supply (s : TokenState) (o sp : Address)
    (a : Nat) : (s.update_allowance o sp a).total_supply = s.total_supply := rfl

/-- The inner map fetched by `update_allowance` after ensuring the owner key
exists: the owner's previous inner map, or empty. -/
theorem ensured_inner_eq (s : TokenState) (o : Address) :
    (svGet (if svContainsKey s.allowed o then s.allowed
            else svInsert s.allowed o []) o).getD [] =
      (svGet s.allowed o).getD [] := by
  by_cases hc : svContainsKey s.allowed o
  · rw [if_pos hc]
  · rw [if_neg hc, svGet_svInsert_self, svGet_of_not_containsKey hc]
    rfl

theorem sortedKeys_ensured (s : TokenState) (o : Address)
    (hs : SortedKeys s.allowed) :
    SortedKeys (if svContainsKey s.allowed o then s.allowed
                else svInsert s.allowed o []) := by
  by_cases hc : svContainsKey s.allowed o
  · rwa [if_pos hc]
  · rw [if_neg hc]
    exact sortedKeys_svInsert hs

theorem mem_ensured {s : TokenState} {o : Address}
    {q : Address × List (Address × Nat)}
    (h : q ∈ (if svContainsKey s.allowed o then s.allowed
              else svInsert s.allowed o [])) :
    q = (o, []) ∨ q ∈ s.allowed := by
  by_cases hc : svContainsKey s.allowed o
  · rw [if_pos hc] at h
    exact Or.inr h
  · rw [if_neg hc] at h
    exact mem_svInsert h

theorem sortedKeys_prior_inner (s : TokenState) (o : Address)
    (hs : ∀ q ∈ s.allowed, SortedKeys q.2) :
    SortedKeys ((svGet s.allowed o).getD []) := by
  cases hg : svGet s.allowed o with
  | none => simp [SortedKeys]
  | some inner =>
    simpa using hs (o, inner) (svGet_mem hg)

theorem allowance_update_allowance_self (s : TokenState) (o sp : Address)
    (a : Nat) (hs3 : ∀ q ∈ s.allowed, SortedKeys q.2) :
    (s.update_allowance o sp a).allowance o sp = a := by
  unfold TokenState.update_allowance TokenState.allowance
  simp only [svGet_svInsert_self, ensured_inner_eq, Option.some_bind]
  exact svGetD_insert_balance_self a (sortedKeys_prior_inner s o hs3)

theorem allowance_update_allowance_ne (s : TokenState) (o sp o' sp' : Address)
    (a : Nat) (h : ¬(o' = o ∧ sp' = sp)) :
    (s.update_allowance o sp a).allowance o' sp' = s.allowance o' sp' := by
  unfold TokenState.update_allowance TokenState.allowance
  by_cases ho : o' = o
  · have hsp : sp' ≠ sp := fun e => h ⟨ho, e⟩
    subst ho
    simp only [svGet_svInsert_self, ensured_inner_eq, Option.some_bind]
    rw [svGet_insert_balance_ne a hsp]
    cases hg : svGet s.allowed o' with
    | none => simp [hg, svGet]
    | some inner => simp [hg]
  · simp only [svGet_svInsert_ne _ ho]
    by_cases hc : svContainsKey s.allowed o
    · rw [if_pos hc]
    · rw [if_neg hc, svGet_svInsert_ne _ ho]

theorem sortedState_update_allowance (s : TokenState) (o sp : Address)
    (a : Nat) (hs : SortedState s) :
    SortedState (s.update_allowance o sp a) := by
  obtain ⟨hs1, hs2, hs3⟩ := hs
  refine ⟨hs1, ?_, ?_⟩
  · exact sortedKeys_svInsert (sortedKeys_ensured s o hs2)
  · intro q hq
    rcases mem_svInsert hq with h | h
    · rw [h]
      refine sortedKeys_insert_balance sp a ?_
      rw [ensured_inner_eq]
      exact sortedKeys_prior_inner s o hs3
    · rcases mem_ensured h with h1 | h1
      · simp [h1, SortedKeys]
      · exact hs3 q h1

theorem noZeroAllowed_update_allowance (s : TokenState) (o sp : Address)
    (a : Nat) (hz : ∀ q ∈ s.allowed, ∀ p ∈ q.2, p.2 ≠ 0) :
    ∀ q ∈ (s.update_allowance o sp a).allowed, ∀ p ∈ q.2, p.2 ≠ 0 := by
  intro q hq
  rcases mem_svInsert hq with h | h
  · rw [h]
    refine noZero_insert_balance ?_
    rw [ensured_inner_eq]
    cases hg : svGet s.allowed o with
    | none => simp
    | some inner =>
      simpa using hz (o, inner) (svGet_mem hg)
  · rcases mem_ensured h with h1 | h1
    · simp [h1]
    · exact hz q h1

/-! ## Characterizations of the checked numeric operations -/

theorem checkedSubU128_eq_some {a b n : Nat} (h : checkedSubU128 a b = some n) :
    b ≤ a ∧ n = a - b := by
  rw [checkedSubU128] at h
  by_cases hle : b ≤ a
  · rw [if_pos hle] at h
    exact ⟨hle, (Option.some.injEq _ _ ▸ h).symm⟩
  · rw [if_neg hle] at h
    exact absurd h (by simp)

theorem checkedAddU128_eq_some {a b n : Nat} (h : checkedAddU128 a b = some n) :
    a + b ≤ u128Max ∧ n = a + b := by
  rw [checkedAddU128] at h
  by_cases hle : a + b ≤ u128Max
  · rw [if_pos hle] at h
    exact ⟨hle, (Option.some.injEq _ _ ▸ h).symm⟩
  · rw [if_neg hle] at h
    exact absurd h (by simp)

theorem checkedAddI128_eq_some {a b : Int} {n : Int}
    (h : checkedAddI128 a b = some n) :
    i128Min ≤ a + b ∧ a + b ≤ i128Max ∧ n = a + b := by
  rw [checkedAddI128] at h
  by_cases hle : i128Min ≤ a + b ∧ a + b ≤ i128Max
  · rw [if_pos hle] at h
    exact ⟨hle.1, hle.2, (Option.some.injEq _ _ ▸ h).symm⟩
  · rw [if_neg hle] at h
    exact absurd h (by simp)

theorem u128ToI128_eq_some {n : Nat} {z : Int} (h : u128ToI128 n = some z) :
    (n : Int) ≤ i128Max ∧ z = (n : Int) := by
  rw [u128ToI128] at h
  by_cases hle : (n : Int) ≤ i128Max
  · rw [if_pos hle] at h
    exact ⟨hle, (Option.some.injEq _ _ ▸ h).symm⟩
  · rw [if_neg hle] at h
    exact absurd h (by simp)

theorem i128ToU128_eq_some {z : Int} {n : Nat} (h : i128ToU128 z = some n) :
    0 ≤ z ∧ n = z.toNat := by
  rw [i128ToU128] at h
  by_cases hle : 0 ≤ z
  · rw [if_pos hle] at h
    exact ⟨hle, (Option.some.injEq _ _ ▸ h).symm⟩
  · rw [if_neg hle] at h
    exact absurd h (by simp)

/-! ## Inversion of the `transfer` handler -/

/-- A successful `transfer` determines its two balance writes: the sender
is debited, then the receiver (read after the debit) is credited. -/
theorem transfer_ok_inv {s s' : TokenState} {c r : Address} {a : Nat}
    (h : transfer s c r a = Except.ok s') :
    a ≤ s.balance_of c ∧
      s' = { s with balances :=
        (insert_balance (insert_balance s.balances c (s.balance_of c - a)) r
          ((svGet (insert_balance s.balances c (s.balance_of c - a)) r).getD 0 + a)) } := by
  unfold transfer at h
  cases h1 : checkedSubU128 (s.balance_of c) a with
  | none => rw [h1] at h; exact absurd h (by simp)
  | some nb =>
    rw [h1] at h
    obtain ⟨hle, hnb⟩ := checkedSubU128_eq_some h1
    simp only [TokenState.balance_of] at h
    cases h2 : checkedAddU128
        ((svGet (insert_balance s.balances c nb) r).getD 0) a with
    | none => rw [h2] at h; exact absurd h (by simp)
    | some nr =>
      rw [h2] at h
      obtain ⟨hle2, hnr⟩ := checkedAddU128_eq_some h2
      refine ⟨hle, ?_⟩
      subst hnb
      subst hnr
      exact (Except.ok.inj h).symm

/-- A successful `approve` determines its writes: the caller is debited and
the spender allowance is overwritten. -/
theorem approve_ok_inv {s s' : TokenState} {c sp : Address} {a : Nat}
    (h : approve s c sp a = Except.ok s') :
    a ≤ s.balance_of c ∧
      s' = TokenState.update_allowance
        { s with balances := insert_balance s.balances c (s.balance_of c - a) }
        c sp a := by
  unfold approve at h
  cases h1 : checkedSubU128 (s.balance_of c) a with
  | none => rw [h1] at h; exact absurd h (by simp)
  | some nb =>
    rw [h1] at h
    obtain ⟨hle, hnb⟩ := checkedSubU128_eq_some h1
    refine ⟨hle, ?_⟩
    subst hnb
    exact (Except.ok.inj h).symm

/-- A successful `transfer_from` determines its writes: the caller's
allowance from `fromAddr` is debited, then the receiver is credited; no
ledger balance other than the receiver's is touched. -/
theorem transfer_from_ok_inv {s s' : TokenState} {c f r : Address} {a : Nat}
    (h : transfer_from s c f r a = Except.ok s') :
    a ≤ s.allowance f c ∧
      s' = (let s1 := s.update_allowance f c (s.allowance f c - a)
            { s1 with balances :=
              (insert_balance s1.balances r ((svGet s1.balances r).getD 0 + a)) }) := by
  unfold transfer_from at h
  cases h1 : checkedSubU128 (s.allowance f c) a with
  | none => rw [h1] at h; exact absurd h (by simp)
  | some na =>
    rw [h1] at h
    obtain ⟨hle, hna⟩ := checkedSubU128_eq_some h1
    simp only [TokenState.balance_of] at h
    cases h2 : checkedAddU128
        ((svGet (s.update_allowance f c na).balances r).getD 0) a with
    | none => rw [h2] at h; exact absurd h (by simp)
    | some nr =>
      rw [h2] at h
      obtain ⟨hle2, hnr⟩ := checkedAddU128_eq_some h2
      refine ⟨hle, ?_⟩
      subst hna
      subst hnr
      exact (Except.ok.inj h).symm

/-- A successful `approve_relative` determines its writes: with the clamped
delta `d`, the spender allowance becomes `A + d` and the caller balance
becomes `B + d`, with every intermediate value in range. -/
theorem approve_relative_ok_inv {s s' : TokenState} {c sp : Address}
    {d0 : Int} (h : approve_relative s c sp d0 = Except.ok s') :
    (s.balance_of c : Int) ≤ i128Max ∧
    (s.allowance c sp : Int) ≤ i128Max ∧
    (0 ≤ (s.allowance c sp : Int) + clampDelta d0 (s.allowance c sp) ∧
      (s.allowance c sp : Int) + clampDelta d0 (s.allowance c sp) ≤ i128Max) ∧
    (0 ≤ (s.balance_of c : Int) + clampDelta d0 (s.allowance c sp) ∧
      (s.balance_of c : Int) + clampDelta d0 (s.allowance c sp) ≤ i128Max) ∧
    s' = (let s1 := s.update_allowance c sp
            ((s.allowance c sp : Int) + clampDelta d0 (s.allowance c sp)).toNat
          { s1 with balances :=
            (insert_balance s1.balances c
              ((s.balance_of c : Int) + clampDelta d0 (s.allowance c sp)).toNat) }) := by
  unfold approve_relative at h
  cases hb : u128ToI128 (s.balance_of c) with
  | none => rw [hb] at h; exact absurd h (by simp)
  | some cb =>
    rw [hb] at h
    obtain ⟨hbLe, hcb⟩ := u128ToI128_eq_some hb
    cases ha : u128ToI128 (s.allowance c sp) with
    | none => rw [ha] at h; exact absurd h (by simp)
    | some sa =>
      rw [ha] at h
      obtain ⟨haLe, hsa⟩ := u128ToI128_eq_some ha
      subst hcb
      subst hsa
      simp only [] at h
      cases h3 : checkedAddI128 ((s.allowance c sp : Int))
          (clampDelta d0 (s.allowance c sp)) with
      | none => rw [h3] at h; exact absurd h (by simp)
      | some sna0 =>
        rw [h3] at h
        simp only [] at h
        obtain ⟨h3a, h3b, h3c⟩ := checkedAddI128_eq_some h3
        cases h4 : i128ToU128 sna0 with
        | none => rw [h4] at h; exact absurd h (by simp)
        | some sna =>
          rw [h4] at h
          simp only [] at h
          obtain ⟨h4a, h4b⟩ := i128ToU128_eq_some h4
          cases h5 : checkedAddI128 ((s.balance_of c : Int))
              (clampDelta d0 (s.allowance c sp)) with
          | none => rw [h5] at h; exact absurd h (by simp)
          | some cnb0 =>
            rw [h5] at h
            simp only [] at h
            obtain ⟨h5a, h5b, h5c⟩ := checkedAddI128_eq_some h5
            cases h6 : i128ToU128 cnb0 with
            | none => rw [h6] at h; exact absurd h (by simp)
            | some cnb =>
              rw [h6] at h
              obtain ⟨h6a, h6b⟩ := i128ToU128_eq_some h6
              subst h3c
              subst h5c
              refine ⟨hbLe, haLe, ⟨h4a, h3b⟩, ⟨h6a, h5b⟩, ?_⟩
              subst h4b
              subst h6b
              exact (Except.ok.inj h).symm

/-! ## Projection helpers -/

theorem balance_of_def (s : TokenState) (o : Address) :
    s.balance_of o = (svGet s.balances o).getD 0 := rfl

theorem balance_of_setBalances (s : TokenState)
    (bal : List (Address × Nat)) (o : Address) :
    TokenState.balance_of { s with balances := bal } o = (svGet bal o).getD 0 := rfl

theorem allowance_setBalances (s : TokenState) (bal : List (Address × Nat))
    (o sp : Address) :
    TokenState.allowance { s with balances := bal } o sp = s.allowance o sp := rfl

theorem balance_of_update_allowance (s : TokenState) (o sp : Address)
    (a : Nat) (x : Address) :
    (s.update_allowance o sp a).balance_of x = s.balance_of x := rfl

theorem allowed_setBalances (s : TokenState) (bal : List (Address × Nat)) :
    ({ s with balances := bal } : TokenState).allowed = s.allowed := rfl

theorem checkedSubU128_of_le {a b : Nat} (h : b ≤ a) :
    checkedSubU128 a b = some (a - b) := by
  unfold checkedSubU128
  rw [if_pos h]

theorem checkedSubU128_of_lt {a b : Nat} (h : a < b) :
    checkedSubU128 a b = none := by
  unfold checkedSubU128
  rw [if_neg (by omega)]

theorem checkedAddU128_of_le {a b : Nat} (h : a + b ≤ u128Max) :
    checkedAddU128 a b = some (a + b) := by
  unfold checkedAddU128
  rw [if_pos h]

/-! ## Claim C5 -/

/-- C5: for every caller, receiver and amount with
`amount > balanceOf(caller)`, `transfer` aborts signalling
`InsufficientBalance`. In this embedding an abort returns only the error
and no state, so the host's pre-call state is trivially unchanged, which
is the abort-atomicity contract of the source (a panic unwinds the call
and the chain keeps the prior persisted state). -/
theorem transfer_insufficient_balance_aborts (s : TokenState)
    (c r : Address) (a : Nat) (h : s.balance_of c < a) :
    transfer s c r a = Except.error TokenError.insufficientBalance := by
  unfold transfer
  rw [checkedSubU128_of_lt h]

/-- Witness for C5: at genesis with supply 1000 owned by account 0, a
transfer of 1001 aborts with `InsufficientBalance`. -/
theorem transfer_insufficient_balance_aborts_witness :
    (initToken 0 1000 "" "" 0).balance_of 0 < 1001 ∧
    transfer (initToken 0 1000 "" "" 0) 0 1 1001 =
      Except.error TokenError.insufficientBalance :=
  ⟨by decide, transfer_insufficient_balance_aborts (initToken 0 1000 "" "" 0)
    0 1 1001 (by decide)⟩

/-! ## Claim C9 -/

/-- C9: writing balance `0` for an address (`insert_balance` with amount
`0`, the `setBalance(addr, 0)` of the specification) removes any existing
entry, so afterwards the map holds no entry for the address and
`balance_of` returns `0`. -/
theorem set_balance_zero_round_trip (s : TokenState) (addr : Address)
    (hs : SortedKeys s.balances) :
    svGet (insert_balance s.balances addr 0) addr = none ∧
    TokenState.balance_of { s with balances := insert_balance s.balances addr 0 }
      addr = 0 := by
  have h1 : svGet (insert_balance s.balances addr 0) addr = none := by
    rw [insert_balance_eq, if_pos rfl]
    exact svGet_svRemove_self hs
  refine ⟨h1, ?_⟩
  rw [balance_of_setBalances, h1]
  rfl

/-- Witness for C9 at a concrete one-entry balance map. -/
theorem set_balance_zero_round_trip_witness :
    SortedKeys sampleState.balances ∧
    (svGet (insert_balance sampleState.balances 0 0) 0 = none ∧
      TokenState.balance_of
        { sampleState with balances := insert_balance sampleState.balances 0 0 }
        0 = 0) :=
  ⟨by decide, set_balance_zero_round_trip sampleState 0 (by decide)⟩

/-! ## Claim C7 -/

/-- C7: a self-transfer of any amount up to the caller's balance succeeds
(the receiver balance is read after the debit, so the checked addition
recomputes exactly the original balance and cannot overflow) and leaves
the caller's balance unchanged end to end. -/
theorem self_transfer_net_neutral (s : TokenState) (c : Address) (a : Nat)
    (hs : SortedKeys s.balances) (hmax : s.balance_of c ≤ u128Max)
    (ha : a ≤ s.balance_of c) :
    ∃ s', transfer s c c a = Except.ok s' ∧
      s'.balance_of c = s.balance_of c := by
  have hs1 : SortedKeys (insert_balance s.balances c (s.balance_of c - a)) :=
    sortedKeys_insert_balance c _ hs
  unfold transfer
  rw [checkedSubU128_of_le ha]
  simp only []
  have h2 : checkedAddU128
      (TokenState.balance_of
        { s with balances := insert_balance s.balances c (s.balance_of c - a) } c)
      a = some (s.balance_of c) := by
    rw [balance_of_setBalances, svGetD_insert_balance_self _ hs]
    unfold checkedAddU128
    rw [if_pos (by omega)]
    congr 1
    omega
  rw [h2]
  refine ⟨_, rfl, ?_⟩
  rw [balance_of_setBalances, balance_of_setBalances]
  exact svGetD_insert_balance_self _ hs1

/-- Witness for C7: a self-transfer of 123 out of 500 leaves account 0 at
500. -/
theorem self_transfer_net_neutral_witness :
    (SortedKeys sampleState.balances ∧ sampleState.balance_of 0 ≤ u128Max ∧
      123 ≤ sampleState.balance_of 0) ∧
    (∃ s', transfer sampleState 0 0 123 = Except.ok s' ∧
      s'.balance_of 0 = sampleState.balance_of 0) :=
  ⟨⟨by decide, by decide, by decide⟩,
    self_transfer_net_neutral sampleState 0 123 (by decide) (by decide)
      (by decide)⟩

/-! ## Claim C6 -/

/-- A successful `approve` in forward form. -/
theorem approve_ok_of (s : TokenState) (c sp : Address) (a : Nat)
    (ha : a ≤ s.balance_of c) :
    approve s c sp a = Except.ok
      (TokenState.update_allowance
        { s with balances := insert_balance s.balances c (s.balance_of c - a) }
        c sp a) := by
  unfold approve
  rw [checkedSubU128_of_le ha]

/-- `approve` preserves the sorted-map representation invariant. -/
theorem sortedState_approve {s s' : TokenState} {c sp : Address} {a : Nat}
    (hs : SortedState s) (h : approve s c sp a = Except.ok s') :
    SortedState s' := by
  obtain ⟨hle, hEq⟩ := approve_ok_inv h
  subst hEq
  exact sortedState_update_allowance _ c sp a
    ⟨sortedKeys_insert_balance c _ hs.1, hs.2.1, hs.2.2⟩

/-- C6: with `amount <= balanceOf(caller)`, `approve` succeeds, debits the
caller's balance to `B - amount`, and sets the allowance to exactly
`amount`, overwriting any prior allowance (which is not returned to the
caller); hence a second `approve` with a different amount leaves the
allowance equal to the second amount. -/
theorem approve_debits_and_overwrites (s : TokenState) (c sp : Address)
    (a1 a2 : Nat) (hs : SortedState s) (h1 : a1 ≤ s.balance_of c) :
    ∃ s1, approve s c sp a1 = Except.ok s1 ∧
      s1.balance_of c = s.balance_of c - a1 ∧
      s1.allowance c sp = a1 ∧
      (a2 ≤ s1.balance_of c →
        ∃ s2, approve s1 c sp a2 = Except.ok s2 ∧
          s2.allowance c sp = a2 ∧
          s2.balance_of c = s1.balance_of c - a2) := by
  obtain ⟨hb, ho, hi⟩ := hs
  have hok := approve_ok_of s c sp a1 h1
  refine ⟨_, hok, ?_, ?_, ?_⟩
  · rw [balance_of_update_allowance, balance_of_setBalances]
    exact svGetD_insert_balance_self _ hb
  · exact allowance_update_allowance_self _ c sp a1 hi
  · intro h2
    have hs1 : SortedState
        (TokenState.update_allowance
          { s with balances := insert_balance s.balances c (s.balance_of c - a1) }
          c sp a1) :=
      sortedState_approve ⟨hb, ho, hi⟩ hok
    obtain ⟨hb1, ho1, hi1⟩ := hs1
    refine ⟨_, approve_ok_of _ c sp a2 h2, ?_, ?_⟩
    · exact allowance_update_allowance_self _ c sp a2 hi1
    · rw [balance_of_update_allowance, balance_of_setBalances]
      exact svGetD_insert_balance_self _ hb1

/-- Witness for C6: approving 300 then 200 out of a 500 balance leaves the
allowance at 200, not 500. -/
theorem approve_debits_and_overwrites_witness :
    (SortedState sampleStateNoAllowance ∧
      300 ≤ sampleStateNoAllowance.balance_of 0) ∧
    (∃ s1, approve sampleStateNoAllowance 0 1 300 = Except.ok s1 ∧
      s1.balance_of 0 = sampleStateNoAllowance.balance_of 0 - 300 ∧
      s1.allowance 0 1 = 300 ∧
      (200 ≤ s1.balance_of 0 →
        ∃ s2, approve s1 0 1 200 = Except.ok s2 ∧
          s2.allowance 0 1 = 200 ∧
          s2.balance_of 0 = s1.balance_of 0 - 200)) :=
  ⟨⟨by decide, by decide⟩,
    approve_debits_and_overwrites sampleStateNoAllowance 0 1 300 200
      (by decide) (by decide)⟩

/-! ## Claim C4 -/

/-- Counterexample to C4 as stated: when the receiver coincides with the
`from` account, a successful `transferFrom` does change `balanceOf(from)`
(it rises by the amount), so the claim's universal scope over all
`from`, `to` is too wide. Here `allowance(0, 1) = 100 ≥ 50` and
`transfer_from` with receiver `0` moves account 0 from 500 to 550. -/
theorem transfer_from_self_receiver_changes_from_balance :
    (Except.map (fun s => s.balance_of 0) (transfer_from sampleState 1 0 0 50) =
      Except.ok 550) ∧
    (550 : Nat) ≠ sampleState.balance_of 0 := by
  constructor
  · rfl
  · decide

/-- C4 (amended with `to ≠ from`): a successful
`transferFrom(caller, from, to, amount)` leaves `balanceOf(from)`
unchanged — the `from` balance is never debited — decreases
`allowance(from, caller)` by exactly `amount`, increases `balanceOf(to)`
by exactly `amount`, and changes no other balance and no other
allowance. -/
theorem transfer_from_frame (s s' : TokenState) (c f r : Address) (a : Nat)
    (hs : SortedState s) (hrf : r ≠ f)
    (h : transfer_from s c f r a = Except.ok s') :
    s'.balance_of f = s.balance_of f ∧
    a ≤ s.allowance f c ∧
    s'.allowance f c = s.allowance f c - a ∧
    s'.balance_of r = s.balance_of r + a ∧
    (∀ x, x ≠ r → s'.balance_of x = s.balance_of x) ∧
    (∀ o sp, ¬(o = f ∧ sp = c) → s'.allowance o sp = s.allowance o sp) := by
  obtain ⟨hb, ho, hi⟩ := hs
  obtain ⟨hle, hEq⟩ := transfer_from_ok_inv h
  subst hEq
  have hbal1 : (s.update_allowance f c (s.allowance f c - a)).balances =
      s.balances := update_allowance_balances s f c _
  have hframe : ∀ x, x ≠ r →
      TokenState.balance_of
        (let s1 := s.update_allowance f c (s.allowance f c - a)
         { s1 with balances :=
           (insert_balance s1.balances r ((svGet s1.balances r).getD 0 + a)) }) x =
      s.balance_of x := by
    intro x hx
    rw [balance_of_setBalances, svGet_insert_balance_ne _ hx, hbal1]
    rfl
  refine ⟨hframe f (Ne.symm hrf), hle, ?_, ?_, hframe, ?_⟩
  · exact allowance_update_allowance_self s f c _ hi
  · rw [balance_of_setBalances, hbal1, svGetD_insert_balance_self _ (hbal1 ▸ hb)]
    rfl
  · intro o sp hosp
    exact allowance_update_allowance_ne s f c o sp _ hosp

/-- Witness for C4: drawing 50 against the allowance of 100 credits
receiver 2 and leaves the balance of account 0 at 500. -/
theorem transfer_from_frame_witness :
    (SortedState sampleState ∧ (2 : Address) ≠ 0 ∧
      transfer_from sampleState 1 0 2 50 = Except.ok sampleAfterTransferFrom) ∧
    (sampleAfterTransferFrom.balance_of 0 = sampleState.balance_of 0 ∧
      50 ≤ sampleState.allowance 0 1 ∧
      sampleAfterTransferFrom.allowance 0 1 = sampleState.allowance 0 1 - 50 ∧
      sampleAfterTransferFrom.balance_of 2 = sampleState.balance_of 2 + 50 ∧
      (∀ x, x ≠ 2 →
        sampleAfterTransferFrom.balance_of x = sampleState.balance_of x) ∧
      (∀ o sp, ¬(o = 0 ∧ sp = 1) →
        sampleAfterTransferFrom.allowance o sp = sampleState.allowance o sp)) :=
  ⟨⟨by decide, by decide, by rfl⟩,
    transfer_from_frame sampleState sampleAfterTransferFrom 1 0 2 50
      (by decide) (by decide) (by rfl)⟩

/-! ## Claim C2 -/

/-- Evaluation of the code at the failing input of C2: with
`allowance(0,1) = 100` and `balanceOf(0) = 500`, the call
`approve_relative 0 1 (-150)` does clamp the delta and remove the
allowance entry, but the caller's balance FALLS to 400 — the code adds
the clamped (negative) delta to the balance — while the claim (and the
source's own doc comment, which says the outstanding allowance is
"returned to the caller") requires the balance to RISE to 600. -/
theorem approve_relative_clamp_debits_caller :
    Except.map
      (fun s => (s.balance_of 0, s.allowance 0 1,
        svGet ((svGet s.allowed 0).getD []) 1))
      (approve_relative sampleState 0 1 (-150)) =
      Except.ok (400, 0, none) ∧
    sampleState.balance_of 0 = 500 ∧
    sampleState.allowance 0 1 = 100 ∧
    (400 : Nat) ≠ 500 + 100 :=
  ⟨rfl, rfl, rfl, by decide⟩

/-! ## Claim C3 -/

/-- Counterexample to C3's gloss that a positive delta debits the caller:
with no prior allowance, `approve_relative 0 1 50` moves the balance of
account 0 from 500 to 550 — the positive delta is CREDITED, it does not
debit to 450. -/
theorem approve_relative_positive_delta_credits_cx :
    Except.map (fun s => s.balance_of 0)
      (approve_relative sampleStateNoAllowance 0 1 50) = Except.ok 550 ∧
    (550 : Nat) ≠ sampleStateNoAllowance.balance_of 0 - 50 :=
  ⟨rfl, by decide⟩

/-- C3 (amended): a successful `approve_relative` computes the caller's
new balance as `B + delta` in signed 128-bit arithmetic with the same
possibly clamped delta as the allowance update — so a positive delta
CREDITS the caller's balance (diverging from `approve`'s
debit-on-approval model) — and the operation aborts rather than writing
when `B + delta` overflows or is negative (success implies the value is
in range). -/
theorem approve_relative_balance_update (s s' : TokenState) (c sp : Address)
    (d0 : Int) (hs : SortedState s)
    (h : approve_relative s c sp d0 = Except.ok s') :
    ((s'.balance_of c : Int) =
        (s.balance_of c : Int) + clampDelta d0 (s.allowance c sp) ∧
      (s'.allowance c sp : Int) =
        (s.allowance c sp : Int) + clampDelta d0 (s.allowance c sp)) ∧
    (0 ≤ (s.balance_of c : Int) + clampDelta d0 (s.allowance c sp) ∧
      (s.balance_of c : Int) + clampDelta d0 (s.allowance c sp) ≤ i128Max) ∧
    (0 < d0 → s.balance_of c < s'.balance_of c) := by
  obtain ⟨hb, ho, hi⟩ := hs
  obtain ⟨hbLe, haLe, ⟨hA0, hAmax⟩, ⟨hB0, hBmax⟩, hEq⟩ :=
    approve_relative_ok_inv h
  subst hEq
  simp only []
  have hbal1 := update_allowance_balances s c sp
    ((s.allowance c sp : Int) + clampDelta d0 (s.allowance c sp)).toNat
  have h1 : TokenState.balance_of
      (let s1 := s.update_allowance c sp
        ((s.allowance c sp : Int) + clampDelta d0 (s.allowance c sp)).toNat
       { s1 with balances :=
         (insert_balance s1.balances c
           ((s.balance_of c : Int) + clampDelta d0 (s.allowance c sp)).toNat) })
      c =
      ((s.balance_of c : Int) + clampDelta d0 (s.allowance c sp)).toNat := by
    rw [balance_of_setBalances, hbal1]
    exact svGetD_insert_balance_self _ hb
  have h2 : TokenState.allowance
      (let s1 := s.update_allowance c sp
        ((s.allowance c sp : Int) + clampDelta d0 (s.allowance c sp)).toNat
       { s1 with balances :=
         (insert_balance s1.balances c
           ((s.balance_of c : Int) + clampDelta d0 (s.allowance c sp)).toNat) })
      c sp =
      ((s.allowance c sp : Int) + clampDelta d0 (s.allowance c sp)).toNat :=
    allowance_update_allowance_self s c sp _ hi
  refine ⟨⟨?_, ?_⟩, ⟨hB0, hBmax⟩, ?_⟩
  · rw [h1, Int.toNat_of_nonneg hB0]
  · rw [h2, Int.toNat_of_nonneg hA0]
  · intro hd
    have hcl : clampDelta d0 (s.allowance c sp) = d0 := by
      unfold clampDelta
      rw [if_neg (by omega)]
    rw [h1, hcl]
    rw [hcl] at hB0
    omega

/-- Witness for C3 (amended): approving a relative delta of `+50` with no
prior allowance credits the caller balance from 500 to 550. -/
theorem approve_relative_balance_update_witness :
    (SortedState sampleStateNoAllowance ∧
      approve_relative sampleStateNoAllowance 0 1 50 =
        Except.ok sampleAfterApproveRelative) ∧
    (((sampleAfterApproveRelative.balance_of 0 : Int) =
        (sampleStateNoAllowance.balance_of 0 : Int) +
          clampDelta 50 (sampleStateNoAllowance.allowance 0 1) ∧
      (sampleAfterApproveRelative.allowance 0 1 : Int) =
        (sampleStateNoAllowance.allowance 0 1 : Int) +
          clampDelta 50 (sampleStateNoAllowance.allowance 0 1)) ∧
    (0 ≤ (sampleStateNoAllowance.balance_of 0 : Int) +
        clampDelta 50 (sampleStateNoAllowance.allowance 0 1) ∧
      (sampleStateNoAllowance.balance_of 0 : Int) +
        clampDelta 50 (sampleStateNoAllowance.allowance 0 1) ≤ i128Max) ∧
    ((0 : Int) < 50 →
      sampleStateNoAllowance.balance_of 0 <
        sampleAfterApproveRelative.balance_of 0)) :=
  ⟨⟨by decide, by rfl⟩,
    approve_relative_balance_update sampleStateNoAllowance
      sampleAfterApproveRelative 0 1 50 (by decide) (by rfl)⟩

/-! ## Claim C10 -/

/-- C10: `approve_relative` at `delta = i128::MIN` does not abort while
computing the magnitude — the failed `checked_abs` is replaced by
`i128::MAX`, which is at least any representable allowance — so the delta
is clamped to minus the current allowance, and the whole call behaves
exactly like any other negative delta whose magnitude is at least the
allowance. -/
theorem approve_relative_min_delta_clamps (s : TokenState) (c sp : Address)
    (d : Int) (hA : (s.allowance c sp : Int) ≤ i128Max)
    (hd : d < 0) (hmag : (s.allowance c sp : Int) ≤ |d|) :
    clampDelta i128Min (s.allowance c sp) = -(s.allowance c sp : Int) ∧
    approve_relative s c sp i128Min = approve_relative s c sp d := by
  have hmin_neg : i128Min < 0 := by norm_num [i128Min]
  have habs : (checkedAbsI128 i128Min).getD i128Max = i128Max := by
    unfold checkedAbsI128
    rw [if_pos rfl]
    rfl
  have hcl1 : clampDelta i128Min (s.allowance c sp) =
      -(s.allowance c sp : Int) := by
    unfold clampDelta
    rw [if_pos hmin_neg, habs, if_pos hA]
  have hcl2 : clampDelta d (s.allowance c sp) =
      -(s.allowance c sp : Int) := by
    unfold clampDelta
    rw [if_pos hd]
    by_cases hdm : d = i128Min
    · subst hdm
      rw [habs, if_pos hA]
    · have hd2 : (checkedAbsI128 d).getD i128Max = |d| := by
        unfold checkedAbsI128
        rw [if_neg hdm]
        rfl
      rw [hd2, if_pos hmag]
  refine ⟨hcl1, ?_⟩
  have ha : u128ToI128 (s.allowance c sp) = some (s.allowance c sp : Int) := by
    unfold u128ToI128
    rw [if_pos hA]
  unfold approve_relative
  cases hb : u128ToI128 (s.balance_of c) with
  | none => rfl
  | some cb =>
    simp only []
    rw [ha]
    simp only []
    rw [hcl1, hcl2]

/-- Witness for C10: on the sample state with allowance 100, delta
`i128::MIN` behaves exactly like delta `-150`. -/
theorem approve_relative_min_delta_clamps_witness :
    ((sampleState.allowance 0 1 : Int) ≤ i128Max ∧ (-150 : Int) < 0 ∧
      (sampleState.allowance 0 1 : Int) ≤ |(-150 : Int)|) ∧
    (clampDelta i128Min (sampleState.allowance 0 1) =
        -(sampleState.allowance 0 1 : Int) ∧
      approve_relative sampleState 0 1 i128Min =
        approve_relative sampleState 0 1 (-150)) :=
  ⟨⟨by decide, by decide, by decide⟩,
    approve_relative_min_delta_clamps sampleState 0 1 (-150) (by decide)
      (by decide) (by decide)⟩

/-! ## Claim C1 -/

/-- Along `transfer`-only executions the balance map stays sorted, its sum
is conserved, and the total supply field is never written. -/
theorem transferOnly_sum_invariant {g s : TokenState}
    (h : TransferOnlyReachable g s) (hg : SortedKeys g.balances) :
    SortedKeys s.balances ∧ svSum s.balances = svSum g.balances ∧
    s.total_supply = g.total_supply := by
  induction h with
  | refl => exact ⟨hg, rfl, rfl⟩
  | @step s1 s2 c r a hprev hok ih =>
    obtain ⟨hs, hsum, hts⟩ := ih
    obtain ⟨hle, hEq⟩ := transfer_ok_inv hok
    subst hEq
    have hs1 : SortedKeys (insert_balance s1.balances c (s1.balance_of c - a)) :=
      sortedKeys_insert_balance c _ hs
    refine ⟨sortedKeys_insert_balance r _ hs1, ?_, hts⟩
    have hbg : s1.balance_of c = (svGet s1.balances c).getD 0 := rfl
    have e1 := svSum_insert_balance c (s1.balance_of c - a) hs
    have e2 := svSum_insert_balance r
      ((svGet (insert_balance s1.balances c (s1.balance_of c - a)) r).getD 0 + a)
      hs1
    have hBle := svGetD_le_svSum s1.balances c
    show svSum (insert_balance (insert_balance s1.balances c (s1.balance_of c - a))
      r ((svGet (insert_balance s1.balances c (s1.balance_of c - a)) r).getD 0 + a))
      = svSum g.balances
    omega

/-- C1 (amended): the sum of all balances equals `totalSupply` in the
genesis state and in every state reachable by `transfer` operations
alone. The invariant as originally claimed — over all four operations —
fails, because `approve` debits the caller's balance into the allowance
table and `transfer_from` credits the receiver without debiting any
balance (see the counterexample). -/
theorem sum_balances_transfer_only_conservation (sender : Address) (ts : Nat)
    (n sy : String) (d : Nat) (s : TokenState)
    (h : TransferOnlyReachable (initToken sender ts n sy d) s) :
    svSum s.balances = s.total_supply := by
  have hg : SortedKeys (initToken sender ts n sy d).balances := by
    simp [initToken, svInsert, SortedKeys]
  obtain ⟨-, hsum, hts⟩ := transferOnly_sum_invariant h hg
  rw [hsum, hts]
  show svSum (svInsert [] sender ts) = ts
  simp [svInsert, svSum]

/-- Witness for C1 (amended): the genesis state with supply 1000 satisfies
the conservation property. -/
theorem sum_balances_transfer_only_conservation_witness :
    svSum (initToken 0 1000 "" "" 0).balances =
      (initToken 0 1000 "" "" 0).total_supply :=
  sum_balances_transfer_only_conservation 0 1000 "" "" 0
    (initToken 0 1000 "" "" 0) TransferOnlyReachable.refl

/-- Counterexample to C1 as stated: from genesis with supply 1000 owned by
account 0, the single successful operation `approve 0 1 400` reaches a
state whose balance sum is 600, not 1000 — the approved amount moved out
of the ledger into the allowance table. -/
theorem sum_balances_not_invariant_after_approve :
    ¬ (∀ s : TokenState, Reachable (initToken 0 1000 "" "" 0) s →
        svSum s.balances = (initToken 0 1000 "" "" 0).total_supply) := by
  intro hall
  have hok : applyOp (initToken 0 1000 "" "" 0) (Op.approveOp 0 1 400) =
      Except.ok sampleAfterGenesisApprove := by rfl
  have hsum := hall sampleAfterGenesisApprove (Reachable.step Reachable.refl hok)
  exact absurd hsum (by decide)

/-! ## Claim C8 -/

/-- Every successfully completing operation preserves the no-zero-entry
property: all balance writes go through `insert_balance`, which prunes
zero values, and allowance writes go through `update_allowance`, which
does the same at the inner level. -/
theorem noZeroState_applyOp {s s' : TokenState} {op : Op}
    (h : applyOp s op = Except.ok s') (hz : NoZeroState s) : NoZeroState s' := by
  obtain ⟨hzb, hza⟩ := hz
  cases op with
  | transferOp c r a =>
    simp only [applyOp] at h
    obtain ⟨-, hEq⟩ := transfer_ok_inv h
    subst hEq
    exact ⟨noZero_insert_balance (noZero_insert_balance hzb), hza⟩
  | transferFromOp c f r a =>
    simp only [applyOp] at h
    obtain ⟨-, hEq⟩ := transfer_from_ok_inv h
    subst hEq
    refine ⟨?_, ?_⟩
    · refine noZero_insert_balance ?_
      intro p hp
      exact hzb p (by rwa [update_allowance_balances] at hp)
    · exact noZeroAllowed_update_allowance s f c _ hza
  | approveOp c sp a =>
    simp only [applyOp] at h
    obtain ⟨-, hEq⟩ := approve_ok_inv h
    subst hEq
    refine ⟨?_, ?_⟩
    · exact noZero_insert_balance hzb
    · exact noZeroAllowed_update_allowance
        { s with balances := insert_balance s.balances c (s.balance_of c - a) }
        c sp a hza
  | approveRelativeOp c sp d =>
    simp only [applyOp] at h
    obtain ⟨-, -, -, -, hEq⟩ := approve_relative_ok_inv h
    subst hEq
    refine ⟨?_, ?_⟩
    · refine noZero_insert_balance ?_
      intro p hp
      exact hzb p (by rwa [update_allowance_balances] at hp)
    · exact noZeroAllowed_update_allowance s c sp _ hza

/-- C8 (amended with `totalSupply > 0`): starting from a genesis with a
positive supply, no reachable state stores a zero value in the balance
map or in any inner allowance map; zero values are pruned on every
operation write and absent keys denote 0. With `totalSupply = 0` the
claim fails at genesis itself, because `initialize` credits the creator
with a plain `insert`, not `insert_balance` (see the counterexample). -/
theorem reachable_no_zero_entries (sender : Address) (ts : Nat)
    (n sy : String) (d : Nat) (s : TokenState) (hts : 0 < ts)
    (h : Reachable (initToken sender ts n sy d) s) : NoZeroState s := by
  induction h with
  | refl =>
    constructor
    · intro p hp
      simp only [initToken, svInsert] at hp
      rcases List.mem_singleton.mp hp with hp2
      rw [hp2]
      simp only []
      omega
    · intro q hq
      simp [initToken] at hq
  | step hprev hok ih => exact noZeroState_applyOp hok ih

/-- Witness for C8 (amended): the genesis state with supply 1000 has no
zero-valued entries. -/
theorem reachable_no_zero_entries_witness :
    0 < 1000 ∧ NoZeroState (initToken 0 1000 "" "" 0) :=
  ⟨by decide, reachable_no_zero_entries 0 1000 "" "" 0
    (initToken 0 1000 "" "" 0) (by decide) Reachable.refl⟩

/-- Counterexample to C8 as stated: with `totalSupply = 0` the genesis
state itself — reachable by the empty sequence — stores the zero value
for the creator, because `initialize` uses a plain `insert`. -/
theorem zero_supply_genesis_has_zero_entry :
    Reachable (initToken 0 0 "" "" 0) (initToken 0 0 "" "" 0) ∧
    ¬ NoZeroState (initToken 0 0 "" "" 0) :=
  ⟨Reachable.refl, by decide⟩

end TashiToken
